import Mathlib

/-!
Verification of the GraphRAG knowledge-graph index (Python backend).

This file gives a shallow embedding in Lean 4 of the storage engine,
semantic search engine, graph traversal engine, query-engine handlers and
the stdio JSON-RPC service of the repository, and proves or refutes the
frozen behavioural claims about them.

Modelling conventions:
 - Python floats are modelled as exact rationals; real-valued computations
   that involve a square root (vector norms) live in `ℝ`.
 - SQLite tables are association lists carried in a `Database` record;
   `ORDER BY x DESC` is modelled by a stable insertion sort (Python's
   `list.sort` is also stable, so the same sort models it).
 - Wall-clock timestamps, logging and connection pooling are outside the
   pure model.  Fallible SQL statements are modelled by explicit failure
   flags so that transactional behaviour (commit / rollback / swallowed
   history-insert failure) is visible in the state transition.
 - Python strings are modelled as `String`; the string operations used by
   the code (lower, strip, split, substring containment) are re-implemented
   structurally over `List Char` so that they evaluate inside the kernel.
   Lowercasing is modelled for ASCII, which covers every label and query
   the code manipulates.
-/

namespace GraphRag

/-! ## Python-style text primitives -/

/-- ASCII lower-casing of one character, as `str.lower` acts on ASCII. -/
def lowerChar (c : Char) : Char :=
  if 65 ≤ c.toNat ∧ c.toNat ≤ 90 then Char.ofNat (c.toNat + 32) else c

/-- Python `str.lower` (ASCII fragment). -/
def pyLower (s : String) : String := ⟨s.data.map lowerChar⟩

/-- Python `str.strip` restricted to spaces (the code only strips labels). -/
def pyStrip (s : String) : String :=
  ⟨((s.data.dropWhile (· = ' ')).reverse.dropWhile (· = ' ')).reverse⟩

/-- Is the first list a prefix of the second?  Mirrors the prefix test used
by Python substring search; the empty needle is a prefix of everything. -/
def isPrefixList : List Char → List Char → Bool
  | [], _ => true
  | _ :: _, [] => false
  | a :: as, b :: bs => a = b && isPrefixList as bs

/-- Python `needle in hay` substring containment on character lists. -/
def containsSub (needle : List Char) : List Char → Bool
  | [] => isPrefixList needle []
  | hay => isPrefixList needle hay ||
      match hay with
      | [] => false
      | _ :: rest => containsSub needle rest

/-- Fuel-driven worker for Python `str.split(sep)` with a non-empty
separator; the fuel starts at the length of the input, which bounds the
number of steps, so the result never depends on it. -/
def splitOnAux (sep : List Char) : ℕ → List Char → List Char → List (List Char)
  | 0, xs, acc => [acc.reverse ++ xs]
  | _ + 1, [], acc => [acc.reverse]
  | fuel + 1, c :: rest, acc =>
    if sep.isPrefixOf (c :: rest) && !sep.isEmpty then
      acc.reverse :: splitOnAux sep fuel ((c :: rest).drop sep.length) []
    else
      splitOnAux sep fuel rest (c :: acc)

/-- Python `s.split(sep)` for a non-empty separator. -/
def pySplit (sep : String) (s : String) : List String :=
  (splitOnAux sep.data s.data.length s.data []).map (fun cs => ⟨cs⟩)

/-! ## Data model (`storage/models.py`) -/

/-- Closed set of edge kinds (`RelationshipType` in `models.py`). -/
inductive RelationshipType where
  | compatible_with
  | belongs_to_category
  | used_in_pattern
  | solves
  | requires
  | triggered_by
  | similar_to
deriving DecidableEq, Repr

/-- The metadata bag fields that the search and query layers read
(`metadata.get("category")`, `"type"`, `"keywords"`, `"use_cases"`,
`"agent_tips"`, `"prerequisites"`, `"failure_modes"`). -/
structure NodeMeta where
  category : Option String
  type : Option String
  keywords : List String
  use_cases : List String
  agent_tips : List String
  prerequisites : List String
  failure_modes : List String
deriving DecidableEq, Repr

/-- The empty metadata bag. -/
def NodeMeta.empty : NodeMeta := ⟨none, none, [], [], [], [], []⟩

/-- A graph node (`Node` in `models.py`).  Timestamps are integer
seconds. -/
structure Node where
  id : String
  label : String
  description : Option String
  category : Option String
  keywords : List String
  metadata : NodeMeta
  created_at : Int
  updated_at : Int
deriving DecidableEq, Repr

/-- A directed edge (`Edge` in `models.py`); the strength is a float in
the source, modelled exactly as a rational. -/
structure Edge where
  id : String
  source_id : String
  target_id : String
  type : RelationshipType
  strength : ℚ
  created_at : Int
deriving DecidableEq, Repr

/-- A stored embedding (`Embedding` in `models.py`); float32 entries are
modelled exactly as rationals. -/
structure Embedding where
  id : String
  node_id : String
  vector : List ℚ
  dimension : ℕ
  model : String
deriving DecidableEq, Repr

/-- One row of the `update_history` table.  The wall-clock timestamp
column is outside the pure model; the JSON payloads of `old_value` and
`new_value` are carried as abbreviated key-value strings. -/
structure UpdateHistoryRow where
  entity_id : String
  entity_type : String
  operation : String
  old_value : Option String
  new_value : Option String
  source : String
deriving DecidableEq, Repr

/-- The database state: the four tables the claims are about. -/
structure Database where
  nodes : List Node
  edges : List Edge
  embeddings : List Embedding
  update_history : List UpdateHistoryRow
deriving DecidableEq, Repr

/-! ## Stable sorts used to model `ORDER BY ... DESC` and `list.sort` -/

/-- Order on nodes used by `get_nodes` (`ORDER BY created_at DESC`). -/
def createdDesc (a b : Node) : Prop := b.created_at ≤ a.created_at

instance : DecidableRel createdDesc := fun _ _ => inferInstanceAs (Decidable (_ ≤ _))

instance : IsTotal Node createdDesc := ⟨fun a b => le_total b.created_at a.created_at⟩

instance : IsTrans Node createdDesc := ⟨fun _ _ _ h1 h2 => le_trans h2 h1⟩

/-- Order on edges used by `get_edges_from_node` / `get_edges_to_node`
(`ORDER BY strength DESC`). -/
def strengthDesc (a b : Edge) : Prop := b.strength ≤ a.strength

instance : DecidableRel strengthDesc := fun _ _ => inferInstanceAs (Decidable (_ ≤ _))

instance : IsTotal Edge strengthDesc := ⟨fun a b => le_total b.strength a.strength⟩

instance : IsTrans Edge strengthDesc := ⟨fun _ _ _ h1 h2 => le_trans h2 h1⟩

/-! ## Storage engine reads (`storage/database.py`) -/

/-- `Database.get_nodes(limit, offset)`: all nodes ordered by
`created_at DESC` with pagination.  The Python defaults are
`limit = 100`, `offset = 0`; callers in this file pass them explicitly. -/
def Database.get_nodes (db : Database) (limit offset : ℕ) : List Node :=
  ((List.insertionSort createdDesc db.nodes).drop offset).take limit

/-- `Database.get_node(node_id)`. -/
def Database.get_node (db : Database) (node_id : String) : Option Node :=
  db.nodes.find? (fun n => n.id = node_id)

/-- `Database.get_edges_from_node(source_id)` (`ORDER BY strength DESC`). -/
def Database.get_edges_from_node (db : Database) (source_id : String) : List Edge :=
  List.insertionSort strengthDesc (db.edges.filter (fun e => e.source_id = source_id))

/-- `Database.get_edges_to_node(target_id)` (`ORDER BY strength DESC`). -/
def Database.get_edges_to_node (db : Database) (target_id : String) : List Edge :=
  List.insertionSort strengthDesc (db.edges.filter (fun e => e.target_id = target_id))

/-- `Database.get_embedding(node_id)`. -/
def Database.get_embedding (db : Database) (node_id : String) : Option Embedding :=
  db.embeddings.find? (fun e => e.node_id = node_id)

/-! ## Storage engine mutations (`storage/database.py`)

Each mutation runs inside a transaction.  Two failure flags model the two
distinct fallible statements: `mutation_fails` models the data-table
statement raising (which rolls the transaction back and makes the method
return `False`), and `history_insert_fails` models the `update_history`
insert inside `_log_update` raising.  Crucially, `_log_update` wraps its
insert in its own `try/except` which only logs a warning, so a failed
history insert does not abort the transaction: the mutation still
commits. -/

structure FailSpec where
  mutation_fails : Bool
  history_insert_fails : Bool
deriving DecidableEq, Repr

/-- `INSERT OR REPLACE` keyed on `id` for the nodes table. -/
def upsertNode (n : Node) (l : List Node) : List Node :=
  if l.any (fun m => m.id = n.id) then l.map (fun m => if m.id = n.id then n else m)
  else l ++ [n]

/-- `INSERT OR REPLACE` keyed on `id` for the edges table. -/
def upsertEdge (e : Edge) (l : List Edge) : List Edge :=
  if l.any (fun f => f.id = e.id) then l.map (fun f => if f.id = e.id then e else f)
  else l ++ [e]

/-- `INSERT OR REPLACE` keyed on `id` for the embeddings table. -/
def upsertEmbedding (e : Embedding) (l : List Embedding) : List Embedding :=
  if l.any (fun f => f.id = e.id) then l.map (fun f => if f.id = e.id then e else f)
  else l ++ [e]

/-- `Database._log_update` appends one row to `update_history` unless its
own insert fails, in which case the failure is swallowed and the state is
left unchanged. -/
def logUpdate (row : UpdateHistoryRow) (history_insert_fails : Bool)
    (db : Database) : Database :=
  if history_insert_fails then db
  else { db with update_history := db.update_history ++ [row] }

/-- `Database.add_node`: upsert into `nodes` plus `_log_update` with
operation `add`, in one transaction. -/
def Database.add_node (db : Database) (n : Node) (f : FailSpec) : Bool × Database :=
  if f.mutation_fails then (false, db)
  else
    (true,
      logUpdate ⟨n.id, "node", "add", none, some ("label=" ++ n.label), "api"⟩
        f.history_insert_fails { db with nodes := upsertNode n db.nodes })

/-- `Database.add_edge`: upsert into `edges` plus `_log_update` with
operation `add_edge` (the source logs entity type `node` here too). -/
def Database.add_edge (db : Database) (e : Edge) (f : FailSpec) : Bool × Database :=
  if f.mutation_fails then (false, db)
  else
    (true,
      logUpdate ⟨e.id, "node", "add_edge", none, some "type-and-strength", "api"⟩
        f.history_insert_fails { db with edges := upsertEdge e db.edges })

/-- `Database.delete_node`: delete from `nodes` (the schema cascades the
delete to incident edges and the embedding) plus `_log_update` with
operation `delete`. -/
def Database.delete_node (db : Database) (node_id : String) (f : FailSpec) :
    Bool × Database :=
  if f.mutation_fails then (false, db)
  else
    (true,
      logUpdate ⟨node_id, "node", "delete", some "", none, "api"⟩
        f.history_insert_fails
        { db with
          nodes := db.nodes.filter (fun n => ¬ n.id = node_id)
          edges := db.edges.filter
            (fun e => ¬ e.source_id = node_id ∧ ¬ e.target_id = node_id)
          embeddings := db.embeddings.filter (fun e => ¬ e.node_id = node_id) })

/-- `Database.delete_edge`: delete from `edges` plus `_log_update` with
operation `delete_edge`. -/
def Database.delete_edge (db : Database) (edge_id : String) (f : FailSpec) :
    Bool × Database :=
  if f.mutation_fails then (false, db)
  else
    (true,
      logUpdate ⟨edge_id, "node", "delete_edge", some "", none, "api"⟩
        f.history_insert_fails
        { db with edges := db.edges.filter (fun e => ¬ e.id = edge_id) })

/-- `Database.add_embedding`: upsert into `embeddings`.  Unlike the four
mutations above, the source never calls `_log_update` here, so no history
row is ever written. -/
def Database.add_embedding (db : Database) (e : Embedding) (f : FailSpec) :
    Bool × Database :=
  if f.mutation_fails then (false, db)
  else (true, { db with embeddings := upsertEmbedding e db.embeddings })

/-! ## Graph traversal engine (`core/graph_traversal.py`) -/

/-- A path through the graph (`Path` dataclass).  Strengths are exact
rationals; the human-readable `reasoning` string is carried as composed
by the source (the join separator glyph is transliterated to `->`). -/
structure Path where
  nodes : List String
  edges : List String
  length : ℕ
  total_strength : ℚ
  confidence : ℚ
  reasoning : String
  pattern : Option String
deriving DecidableEq, Repr

/-- Internal BFS queue entry (`TraversalNode` dataclass). -/
structure TraversalNode where
  node_id : String
  depth : ℕ
  path : List String
  edges_in_path : List String
  confidence : ℚ
deriving DecidableEq, Repr

/-- The path object built when BFS reaches the target over one more
edge. -/
def mkFoundPath (cur : TraversalNode) (edge_id : String) (strength : ℚ)
    (end_id : String) : Path :=
  { nodes := cur.path ++ [end_id]
    edges := cur.edges_in_path ++ [edge_id]
    length := cur.depth + 1
    total_strength := cur.confidence * strength
    confidence := min 1 (cur.confidence * strength)
    reasoning := "Path through " ++ toString (cur.depth + 1) ++ " connections"
    pattern := none }

/-- The BFS child enqueued when following an edge to a fresh neighbour. -/
def mkChild (cur : TraversalNode) (edge_id : String) (strength : ℚ)
    (nbr : String) : TraversalNode :=
  { node_id := nbr
    depth := cur.depth + 1
    path := cur.path ++ [nbr]
    edges_in_path := cur.edges_in_path ++ [edge_id]
    confidence := cur.confidence * strength }

/-- One pass of `find_shortest_path` over the edge list of the dequeued
node (`out` selects the outgoing loop, else the incoming loop).  Returns
`Except.error p` for the early `return Path(...)` when the target is hit,
otherwise the enqueued children and the grown visited set.  Mirrors the
source exactly: the target test comes first, and `visited` grows as the
loop runs. -/
def scanEdges (end_id : String) (cur : TraversalNode) (out : Bool) :
    List Edge → List TraversalNode → List String →
    Except Path (List TraversalNode × List String)
  | [], enq, visited => .ok (enq, visited)
  | e :: es, enq, visited =>
    let nbr := if out then e.target_id else e.source_id
    if nbr = end_id then .error (mkFoundPath cur e.id e.strength end_id)
    else if nbr ∈ visited then scanEdges end_id cur out es enq visited
    else scanEdges end_id cur out es (enq ++ [mkChild cur e.id e.strength nbr])
      (nbr :: visited)

/-- The BFS `while queue` loop of `find_shortest_path`.  The fuel counts
loop iterations; each iteration dequeues one element and every enqueued
element is freshly added to `visited`, so `2 * |edges| + 2` iterations
always suffice and the fuel never changes the result reachable from the
initial queue. -/
def bfsLoop (db : Database) (end_id : String) (max_hops : ℕ) :
    ℕ → List TraversalNode → List String → Option Path
  | 0, _, _ => none
  | _ + 1, [], _ => none
  | fuel + 1, current :: rest, visited =>
    if max_hops ≤ current.depth then bfsLoop db end_id max_hops fuel rest visited
    else
      match scanEdges end_id current true
          (db.get_edges_from_node current.node_id) [] visited with
      | .error p => some p
      | .ok (q1, v1) =>
        match scanEdges end_id current false
            (db.get_edges_to_node current.node_id) q1 v1 with
        | .error p => some p
        | .ok (q2, v2) => bfsLoop db end_id max_hops fuel (rest ++ q2) v2

/-- `find_shortest_path(start, end, max_hops)` (Python default
`max_hops = 5`): undirected BFS that returns the first path found within
the hop bound, or the trivial path when start and end coincide. -/
def find_shortest_path (db : Database) (start_node_id end_node_id : String)
    (max_hops : ℕ) : Option Path :=
  if start_node_id = end_node_id then
    some
      { nodes := [start_node_id], edges := [], length := 0
        total_strength := 1, confidence := 1
        reasoning := "Source and target are the same node", pattern := none }
  else
    bfsLoop db end_node_id max_hops (2 * db.edges.length + 2)
      [{ node_id := start_node_id, depth := 0, path := [start_node_id]
         edges_in_path := [], confidence := 1 }]
      [start_node_id]

/-- `_calculate_path_strength`: a conservative factor of 0.95 per edge
(the source never looks the strengths up). -/
def calculate_path_strength (edge_ids : List String) : ℚ :=
  if edge_ids.isEmpty then 1 else (0.95 : ℚ) ^ edge_ids.length

/-- The path object appended by the inner `dfs` of `find_all_paths` when
the target is reached. -/
def mkDfsPath (path edges_in_path : List String) : Path :=
  { nodes := path
    edges := edges_in_path
    length := path.length - 1
    total_strength := calculate_path_strength edges_in_path
    confidence := min 1 (calculate_path_strength edges_in_path)
    reasoning := "Alternative path through " ++ toString (path.length - 1) ++
      " connections"
    pattern := none }

/-- The edge loop inside the `dfs` of `find_all_paths`, parametrized by
the recursive call (`dfsRec`).  The source mutates the caller-level
`visited` set before each recursive call and then passes a copy down, so
the addition persists for the remaining sibling edges: that is modelled
here by threading `visited` through the fold. -/
def dfsEdges
    (dfsRec : String → List String → List String → List String → ℕ →
      List Path → List Path)
    (out : Bool) (path edges_in_path : List String) :
    List Edge → List String → ℕ → List Path → List String × List Path
  | [], visited, _, paths => (visited, paths)
  | e :: rest, visited, depth, paths =>
    let nbr := if out then e.target_id else e.source_id
    if nbr ∈ visited then
      dfsEdges dfsRec out path edges_in_path rest visited depth paths
    else
      let visited1 := nbr :: visited
      let paths1 := dfsRec nbr (path ++ [nbr]) (edges_in_path ++ [e.id])
        visited1 (depth + 1) paths
      dfsEdges dfsRec out path edges_in_path rest visited1 depth paths1

/-- The recursive `dfs` of `find_all_paths`.  The fuel decreases on every
nested call; since every call increments `depth` and the `depth > max_hops`
guard stops the recursion, the `max_hops + 2` fuel the caller supplies
always suffices, so the result never depends on it. -/
def dfsVisit (db : Database) (end_id : String) (max_hops max_paths : ℕ) :
    ℕ → String → List String → List String → List String → ℕ →
      List Path → List Path
  | 0, _, _, _, _, _, paths => paths
  | fuel + 1, cur, path, edges_in_path, visited, depth, paths =>
    if max_paths ≤ paths.length then paths
    else if max_hops < depth then paths
    else if cur = end_id then paths ++ [mkDfsPath path edges_in_path]
    else
      let r1 := dfsEdges
        (fun c p e v d ps => dfsVisit db end_id max_hops max_paths fuel c p e v d ps)
        true path edges_in_path (db.get_edges_from_node cur) visited depth paths
      let r2 := dfsEdges
        (fun c p e v d ps => dfsVisit db end_id max_hops max_paths fuel c p e v d ps)
        false path edges_in_path (db.get_edges_to_node cur) r1.1 depth r1.2
      r2.2

/-- Order on paths used by `find_all_paths` (sort by confidence
descending; Python sort is stable). -/
def pathConfDesc (a b : Path) : Prop := b.confidence ≤ a.confidence

instance : DecidableRel pathConfDesc := fun _ _ => inferInstanceAs (Decidable (_ ≤ _))

instance : IsTotal Path pathConfDesc := ⟨fun a b => le_total b.confidence a.confidence⟩

instance : IsTrans Path pathConfDesc := ⟨fun _ _ _ h1 h2 => le_trans h2 h1⟩

/-- `find_all_paths(start, end, max_hops, max_paths)` (Python defaults
`max_hops = 4`, `max_paths = 5`): bounded DFS enumeration, sorted by
confidence descending. -/
def find_all_paths (db : Database) (start_node_id end_node_id : String)
    (max_hops max_paths : ℕ) : List Path :=
  List.insertionSort pathConfDesc
    (dfsVisit db end_node_id max_hops max_paths (max_hops + 2) start_node_id
      [start_node_id] [] [start_node_id] 0 [])

/-- Does an edge pass the optional relationship-kind filter of
`get_neighbors`? -/
def typeOk (rts : Option (List RelationshipType)) (e : Edge) : Bool :=
  match rts with
  | none => true
  | some l => e.type ∈ l

/-- The `next_level` set computed by one iteration of the level loop in
`get_neighbors`: neighbours of every node of `current_level` whose edge
passes the filter and whose id is not in `result[0]` (only the root is
ever excluded).  The Python `set` is modelled as an insertion-ordered
deduplicated list. -/
def nextLevelFrom (db : Database) (rts : Option (List RelationshipType))
    (root_level : List String) (current_level : List String) : List String :=
  current_level.foldl
    (fun acc cid =>
      let acc1 := (db.get_edges_from_node cid).foldl
        (fun a e =>
          if typeOk rts e ∧ ¬ root_level.contains e.target_id ∧
              ¬ a.contains e.target_id then
            a ++ [e.target_id]
          else a)
        acc
      (db.get_edges_to_node cid).foldl
        (fun a e =>
          if typeOk rts e ∧ ¬ root_level.contains e.source_id ∧
              ¬ a.contains e.source_id then
            a ++ [e.source_id]
          else a)
        acc1)
    []

/-- `get_neighbors(node_id, depth, relationship_types)`.  The source
initializes `current_level = {node_id}` and never reassigns it inside the
level loop, so every level from 1 to `depth` recomputes the same
`next_level` from the root; nonempty levels are recorded, empty ones are
skipped.  The result models the Python dict as an association list in
insertion order. -/
def get_neighbors (db : Database) (node_id : String) (depth : ℕ)
    (relationship_types : Option (List RelationshipType)) :
    List (ℕ × List String) :=
  let level := nextLevelFrom db relationship_types [node_id] [node_id]
  (0, [node_id]) ::
    (if level.isEmpty then []
     else (List.range' 1 depth).map (fun l => (l, level)))

/-! ## Semantic search engine (`core/semantic_search.py`)

Vectors live in `ℚ` (exact float values) and are cast into `ℝ` for the
norm and dot product, because `np.linalg.norm` takes a square root. -/

/-- One search hit (`SearchResult` dataclass). -/
structure SearchResult where
  node_id : String
  node_label : String
  node_type : String
  category : String
  description : Option String
  confidence : ℝ
  similarity_score : ℝ
  relevance_score : ℝ
  rank : ℕ
  use_cases : List String
  agent_tips : List String
  prerequisites : List String
  failure_modes : List String
  related_nodes : List String
  why_match : String
  metadata : NodeMeta

/-- Sum of squares of a rational vector. -/
def sumSq (v : List ℚ) : ℚ := (v.map (fun x => x * x)).sum

/-- `np.linalg.norm(v)` as a real number. -/
noncomputable def pyNorm (v : List ℚ) : ℝ := Real.sqrt ((sumSq v : ℚ) : ℝ)

/-- Elementwise division by the guarded norm (`v / (norm(v) + 1e-8)`). -/
noncomputable def normalizeGuarded (v : List ℚ) : List ℝ :=
  v.map (fun x => (x : ℝ) / (pyNorm v + 1e-8))

/-- Dot product of two real vectors (`np.dot`; the source only applies it
to vectors of equal dimension). -/
noncomputable def dotR (v w : List ℝ) : ℝ := (List.zipWith (· * ·) v w).sum

/-- The raw guarded cosine: dot product of the two guard-normalized
vectors. -/
noncomputable def rawCosine (v w : List ℚ) : ℝ :=
  dotR (normalizeGuarded v) (normalizeGuarded w)

/-- `SemanticSearchEngine._cosine_similarity`: the raw guarded cosine
remapped from the interval minus-one-to-one onto zero-to-one by
`(cos + 1) / 2` and clamped. -/
noncomputable def cosine_similarity (v w : List ℚ) : ℝ :=
  max 0 (min 1 ((rawCosine v w + 1) / 2))

/-- `_get_related_nodes(node_id, limit=5)`: targets of outgoing edges then
sources of incoming edges, deduplicated (the Python set is modelled in
insertion order), truncated to the limit. -/
def get_related_nodes (db : Database) (node_id : String) (limit : ℕ) :
    List String :=
  (((db.get_edges_from_node node_id).map (fun e => e.target_id) ++
      (db.get_edges_to_node node_id).map (fun e => e.source_id)).dedup).take limit

/-- Does an optional filter reject a metadata field?  Mirrors
`if category_filter and node.metadata.get("category") != category_filter:
continue`. -/
def filterRejects (filt field : Option String) : Bool :=
  match filt with
  | some c => !(field == some c)
  | none => false

/-- Per-candidate body of the `semantic_search` loop: apply the two
filters, look the embedding up, score it, and keep the hit when the
confidence clears `min_confidence`.  The rank is set to 0 and assigned
after sorting, exactly as in the source. -/
noncomputable def scoreNode (db : Database) (query_embedding : List ℚ)
    (category_filter node_type_filter : Option String) (min_confidence : ℝ)
    (node : Node) : Option SearchResult :=
  if filterRejects category_filter node.metadata.category then none
  else if filterRejects node_type_filter node.metadata.type then none
  else
    match db.get_embedding node.id with
    | none => none
    | some emb =>
      let similarity := cosine_similarity query_embedding emb.vector
      let confidence := max 0 (min 1 similarity)
      if confidence < min_confidence then none
      else
        some
          { node_id := node.id
            node_label := node.label
            node_type := (node.metadata.type).getD "unknown"
            category := (node.metadata.category).getD "uncategorized"
            description := node.description
            confidence := confidence
            similarity_score := similarity
            relevance_score := 0
            rank := 0
            use_cases := node.metadata.use_cases.take 3
            agent_tips := node.metadata.agent_tips.take 2
            prerequisites := node.metadata.prerequisites.take 2
            failure_modes := node.metadata.failure_modes.take 2
            related_nodes := get_related_nodes db node.id 5
            why_match := "Found " ++ node.label ++
              " based on semantic similarity"
            metadata := node.metadata }

/-- Order on results used by `semantic_search` and `hybrid_search`
(sort by confidence descending; Python sort is stable). -/
def confDesc (a b : SearchResult) : Prop := b.confidence ≤ a.confidence

noncomputable instance : DecidableRel confDesc :=
  fun _ _ => inferInstanceAs (Decidable (_ ≤ _))

instance : IsTotal SearchResult confDesc :=
  ⟨fun a b => le_total b.confidence a.confidence⟩

instance : IsTrans SearchResult confDesc := ⟨fun _ _ _ h1 h2 => le_trans h2 h1⟩

/-- Order on results used by `keyword_search` (sort by relevance score
descending). -/
def relevanceDesc (a b : SearchResult) : Prop :=
  b.relevance_score ≤ a.relevance_score

noncomputable instance : DecidableRel relevanceDesc :=
  fun _ _ => inferInstanceAs (Decidable (_ ≤ _))

instance : IsTotal SearchResult relevanceDesc :=
  ⟨fun a b => le_total b.relevance_score a.relevance_score⟩

instance : IsTrans SearchResult relevanceDesc :=
  ⟨fun _ _ _ h1 h2 => le_trans h2 h1⟩

/-- `for idx, result in enumerate(results, 1): result.rank = idx`. -/
def setRanksFrom (i : ℕ) : List SearchResult → List SearchResult
  | [] => []
  | r :: rs => { r with rank := i } :: setRanksFrom (i + 1) rs

/-- `semantic_search(query_embedding, limit, category_filter,
node_type_filter, min_confidence)` (Python defaults `limit = 10`,
`min_confidence = 0.3`): score the candidates delivered by the storage
layer with its default pagination (`get_nodes()` with limit 100 and
offset 0), sort by confidence descending (stable), truncate, and assign
ranks from 1. -/
noncomputable def semantic_search (db : Database) (query_embedding : List ℚ)
    (limit : ℕ) (category_filter node_type_filter : Option String)
    (min_confidence : ℝ) : List SearchResult :=
  setRanksFrom 1
    ((List.insertionSort confDesc
        ((db.get_nodes 100 0).filterMap
          (scoreNode db query_embedding category_filter node_type_filter
            min_confidence))).take limit)

/-- `_calculate_keyword_relevance(query, node)`: weighted capped substring
matches of the (already lower-cased) query against label, description,
metadata keywords and metadata use cases, clamped to 1. -/
def calculate_keyword_relevance (query_lower : String) (node : Node) : ℚ :=
  let q := query_lower.data
  let labelScore : ℚ :=
    if containsSub q (pyLower node.label).data then 0.5 else 0
  let descScore : ℚ :=
    match node.description with
    | some d => if containsSub q (pyLower d).data then 0.2 else 0
    | none => 0
  let kwMatches : ℚ :=
    ((node.metadata.keywords.filter
      (fun k => containsSub q (pyLower k).data)).length : ℚ)
  let ucMatches : ℚ :=
    ((node.metadata.use_cases.filter
      (fun u => containsSub q (pyLower u).data)).length : ℚ)
  min 1 (labelScore + descScore + min 0.2 (kwMatches * 0.1) +
    min 0.1 (ucMatches * 0.05))

/-- Per-candidate body of the `keyword_search` loop. -/
noncomputable def scoreNodeKeyword (db : Database) (query query_lower : String)
    (category_filter : Option String) (node : Node) : Option SearchResult :=
  if filterRejects category_filter node.metadata.category then none
  else
    let relevance := calculate_keyword_relevance query_lower node
    if relevance < 0.1 then none
    else
      some
        { node_id := node.id
          node_label := node.label
          node_type := (node.metadata.type).getD "unknown"
          category := (node.metadata.category).getD "uncategorized"
          description := node.description
          confidence := ((max 0.2 (min 1 (relevance * 0.8)) : ℚ) : ℝ)
          similarity_score := 0
          relevance_score := ((relevance : ℚ) : ℝ)
          rank := 0
          use_cases := node.metadata.use_cases.take 3
          agent_tips := node.metadata.agent_tips.take 2
          prerequisites := node.metadata.prerequisites.take 2
          failure_modes := node.metadata.failure_modes.take 2
          related_nodes := get_related_nodes db node.id 5
          why_match := "Found " ++ node.label ++ " matching keyword " ++ query
          metadata := node.metadata }

/-- `keyword_search(query, limit, category_filter)` (Python default
`limit = 10`): relevance-score the candidates delivered by `get_nodes()`
with its default pagination, sort by relevance descending (stable),
truncate, and assign ranks from 1. -/
noncomputable def keyword_search (db : Database) (query : String) (limit : ℕ)
    (category_filter : Option String) : List SearchResult :=
  setRanksFrom 1
    ((List.insertionSort relevanceDesc
        ((db.get_nodes 100 0).filterMap
          (scoreNodeKeyword db query (pyLower query) category_filter))).take
      limit)

/-! ## Query engine handlers (`core/query_engine.py`) -/

/-- Case-insensitive substring label match used by the integrate and
suggest handlers (`label.lower() in node.label.lower()`). -/
def matchesLabel (lbl : String) (n : Node) : Bool :=
  containsSub (pyLower lbl).data (pyLower n.label).data

/-- The label-resolution loop of `_handle_integrate_query`: one pass over
`get_nodes()` that reassigns `source` and `target` on every match (there
is no `break`, so the last matching node of the scan wins). -/
def resolveIntegrateLabels (db : Database) (source_label target_label : String) :
    Option Node × Option Node :=
  (db.get_nodes 100 0).foldl
    (fun st node =>
      (if matchesLabel source_label node then some node else st.1,
       if matchesLabel target_label node then some node else st.2))
    (none, none)

/-- `_handle_integrate_query` up to path finding: split the query on
`" to "`, resolve the two labels over the default `get_nodes()` window,
and call `find_all_paths` with `max_hops = 4` and `max_paths = 3`.
Failures raise `ValueError` in the source, modelled as `Except.error`. -/
def handle_integrate_query (db : Database) (query_text : String) :
    Except String (Node × Node × List Path) :=
  match pySplit " to " query_text with
  | [p1, p2] =>
    let source_label := pyStrip p1
    let target_label := pyStrip p2
    match resolveIntegrateLabels db source_label target_label with
    | (some source, some target) =>
      .ok (source, target, find_all_paths db source.id target.id 4 3)
    | _ => .error "Could not find nodes matching the two labels"
  | _ => .error "Integration query must be in format Node1 to Node2"

/-- The node-location loop of `_handle_suggest_query`: first matching node
of the `get_nodes()` scan (this loop does `break` on the first hit). -/
def handle_suggest_locate (db : Database) (query_text : String) : Option Node :=
  (db.get_nodes 100 0).find? (matchesLabel query_text)

/-! ## Stdio JSON-RPC service (`lightrag_service.py`)

The service is the flat-file variant: it keeps a `catalog.json` of items
and answers `ping`, `query_graph` and `apply_update`.  File contents are
modelled as explicit state; timestamps are a parameter. -/

/-- A JSON value (used to state the exact shape of results). -/
inductive Json where
  | null
  | bool (b : Bool)
  | num (n : Int)
  | str (s : String)
  | arr (xs : List Json)
  | obj (fields : List (String × Json))

/-- Field lookup on a JSON object. -/
def Json.lookupField (k : String) : Json → Option Json
  | .obj fields => fields.lookup k
  | _ => none

/-- One catalog item (a dict with `id`, `label`, `keywords`).  The id can
be absent, as `item.get("id")` can return `None`. -/
structure CatalogItem where
  id : Option String
  label : Option String
  keywords : List String
deriving DecidableEq, Repr

/-- The fallback catalog returned by `load_catalog` when `catalog.json`
does not exist. -/
def defaultCatalog : List CatalogItem :=
  [⟨some "nodes-base.slack", some "Slack", ["slack", "message", "channel"]⟩,
   ⟨some "nodes-base.airtable", some "Airtable", ["airtable", "database", "record"]⟩,
   ⟨some "nodes-base.switch", some "Switch", ["route", "condition", "switch"]⟩]

/-- An incoming update item of `apply_update` (`id` / `type` / `name` /
`label` / `displayName` keys, each possibly absent). -/
structure UpdateItem where
  id : Option String
  type : Option String
  name : Option String
  label : Option String
  displayName : Option String
deriving DecidableEq, Repr

/-- Python `str.split()` with no argument: split on runs of spaces. -/
def pyWords (s : String) : List String :=
  ((splitOnAux [' '] s.data.length s.data []).filter
    (fun w => ¬ w.isEmpty)).map (fun cs => ⟨cs⟩)

/-- Order used for `sorted(...)` over keyword strings. -/
def stringLE (a b : String) : Prop := a.data ≤ b.data

instance : DecidableRel stringLE := fun a b =>
  inferInstanceAs (Decidable (a.data ≤ b.data))

instance : IsTotal String stringLE := ⟨fun a b => le_total a.data b.data⟩

instance : IsTrans String stringLE := ⟨fun _ _ _ h1 h2 => le_trans h1 h2⟩

/-- The `to_item` helper of `apply_update_impl`: derive the stored item,
with keywords from the tokenized id (dots become spaces) and label.
Python renders a missing id as the string `None`. -/
def toItem (x : UpdateItem) : CatalogItem :=
  let xid := (x.id.orElse fun _ => x.type).orElse fun _ => x.name
  let label := (x.label.orElse fun _ => x.displayName).orElse fun _ => xid
  let idStr := xid.getD "None"
  let labelStr := label.getD "None"
  let idTokens := pyWords (pyLower ⟨idStr.data.map
    (fun c => if c = '.' then ' ' else c)⟩)
  let labelTokens := pyWords (pyLower labelStr)
  { id := xid, label := label,
    keywords := List.insertionSort stringLE (idTokens ++ labelTokens).dedup }

/-- Insert-or-assign on the association list that models the Python
`by_id` dict: an existing key keeps its position, a new key is appended. -/
def dictInsert (k : Option String) (v : CatalogItem)
    (d : List (Option String × CatalogItem)) :
    List (Option String × CatalogItem) :=
  if d.any (fun p => p.1 = k) then
    d.map (fun p => if p.1 = k then (k, v) else p)
  else d ++ [(k, v)]

/-- Removal from the `by_id` dict (`del by_id[_id]` guarded by a
membership test). -/
def dictRemove (k : Option String) (d : List (Option String × CatalogItem)) :
    List (Option String × CatalogItem) :=
  d.filter (fun p => ¬ p.1 = k)

/-- One journal line of `events.jsonl`: event name and entity id (the
wall-clock timestamp is outside the model). -/
structure ServiceEvent where
  event : String
  id : Option String
deriving DecidableEq, Repr

/-- `apply_update_impl(graph_dir, added, modified, removed)`: fold the
three item lists over the `by_id` dict (built from the current catalog,
skipping items without an id), append one event per item, persist the
dict values as the new catalog, and return the literal result object
`ok: true` — the source returns nothing else on success. -/
def apply_update_impl (catalog : List CatalogItem)
    (added modified removed : List UpdateItem) :
    List CatalogItem × List ServiceEvent × Json :=
  let by_id0 := (catalog.filter (fun item => item.id.isSome)).map
    (fun item => (item.id, item))
  let stepAdd := fun (st : List (Option String × CatalogItem) × List ServiceEvent)
      (x : UpdateItem) =>
    let item := toItem x
    (dictInsert item.id item st.1, st.2 ++ [⟨"node_added", item.id⟩])
  let stepMod := fun (st : List (Option String × CatalogItem) × List ServiceEvent)
      (x : UpdateItem) =>
    let item := toItem x
    (dictInsert item.id item st.1, st.2 ++ [⟨"node_updated", item.id⟩])
  let stepRem := fun (st : List (Option String × CatalogItem) × List ServiceEvent)
      (x : UpdateItem) =>
    let xid := (x.id.orElse fun _ => x.type).orElse fun _ => x.name
    (dictRemove xid st.1, st.2 ++ [⟨"node_removed", xid⟩])
  let st1 := added.foldl stepAdd (by_id0, [])
  let st2 := modified.foldl stepMod st1
  let st3 := removed.foldl stepRem st2
  (st3.1.map (fun p => p.2), st3.2, Json.obj [("ok", Json.bool true)])

/-- Scoring loop of `query_graph_impl`: one point per catalog keyword that
occurs in the lower-cased query text. -/
def catalogScore (text_lower : String) (item : CatalogItem) : ℕ :=
  (item.keywords.filter (fun kw => containsSub kw.data text_lower.data)).length

/-- Order used by the `scored.sort(key=..., reverse=True)` call (score
descending, stable). -/
def scoreDesc (a b : ℕ × CatalogItem) : Prop := b.1 ≤ a.1

instance : DecidableRel scoreDesc := fun _ _ => inferInstanceAs (Decidable (_ ≤ _))

instance : IsTotal (ℕ × CatalogItem) scoreDesc := ⟨fun a b => le_total b.1 a.1⟩

instance : IsTrans (ℕ × CatalogItem) scoreDesc := ⟨fun _ _ _ h1 h2 => le_trans h2 h1⟩

/-- The `_slugify` fallback is only reached for items with no id, type or
name; the claims never exercise it, and items in scope carry ids, so the
node id of a result row is `id`, else `type`, else `name`, else the
slug of the label (modelled as the lower-cased label). -/
def itemNodeId (item : CatalogItem) : String :=
  (item.id.getD (pyLower (item.label.getD "item")))

/-- `query_graph_impl(text, top_k, graph_dir)`: keyword-score the catalog,
sort descending (stable), keep the first `max(1, top_k)` items, and
connect the first result to the others by a chain of `RELATED` edges. -/
def query_graph_impl (text : String) (top_k : Int)
    (catalog : List CatalogItem) : Json :=
  let text_lower := pyLower text
  let scored := catalog.map (fun item => (catalogScore text_lower item, item))
  let sorted := List.insertionSort scoreDesc scored
  let top := sorted.take (max 1 top_k).toNat
  let nodes : List (String × String) := top.map (fun p =>
    (itemNodeId p.2, (p.2.label).getD (itemNodeId p.2)))
  let edges : List (String × String × String) :=
    match nodes with
    | [] => []
    | root :: others => others.map (fun n => (root.1, n.1, "RELATED"))
  Json.obj
    [("nodes", Json.arr (nodes.map (fun n =>
        Json.obj [("id", Json.str n.1), ("label", Json.str n.2)]))),
     ("edges", Json.arr (edges.map (fun e =>
        Json.obj [("source", Json.str e.1), ("target", Json.str e.2.1),
          ("type", Json.str e.2.2)]))),
     ("summary", Json.str ("Found " ++ toString nodes.length ++
        " node(s) related to the query"))]

/-- An incoming request object: `method`, `params` and `id` as read by
`req.get(...)`. -/
structure Params where
  text : Option String
  top_k : Option Int
  added : Option (List UpdateItem)
  modified : Option (List UpdateItem)
  removed : Option (List UpdateItem)
deriving Repr

structure Request where
  method : Option String
  params : Params
  id : Option Int
deriving Repr

/-- One line of standard input as seen by the loop after `json.loads`:
blank (skipped), a JSON parse failure, or a parsed request object. -/
inductive InputLine where
  | blank
  | malformed
  | request (r : Request)

/-- One emitted JSON-RPC response: a result or an error object. -/
inductive Response where
  | success (result : Json) (id : Int)
  | failure (code : Int) (message : String) (id : Int)

/-- Dispatch one parsed request (`now` is the wall clock read by `ping`).
Unknown methods raise `ValueError`, caught by the loop and answered with
code -32603 and the id of the current request. -/
def dispatch (now : Int) (catalog : List CatalogItem) (r : Request) :
    Response × List CatalogItem :=
  match r.method with
  | some "ping" =>
    (.success (Json.obj [("ok", Json.bool true), ("ts", Json.num now)])
      (r.id.getD 0), catalog)
  | some "query_graph" =>
    (.success (query_graph_impl ((r.params.text).getD "")
        ((r.params.top_k).getD 5) catalog) (r.id.getD 0),
     catalog)
  | some "apply_update" =>
    let res := apply_update_impl catalog ((r.params.added).getD [])
      ((r.params.modified).getD []) ((r.params.removed).getD [])
    (.success res.2.2 (r.id.getD 0), res.1)
  | m =>
    (.failure (-32603) ("Unknown method: " ++ m.getD "None") (r.id.getD 0),
     catalog)

/-- The `for line in sys.stdin` loop of `main`.  The local variable `req`
persists across iterations, which the second argument models.  On a JSON
parse failure the handler evaluates `req.get("id", 0)`: when no line has
parsed successfully yet, `req` is unbound and the `except` block itself
raises `UnboundLocalError`, which terminates the loop — modelled by the
`true` crash flag with no response emitted and the remaining lines
unread.  When a previous request exists, the error response carries that
previous request id. -/
def main_loop (now : Int) :
    List CatalogItem → Option Request → List InputLine → List Response × Bool
  | _, _, [] => ([], false)
  | catalog, lastReq, line :: rest =>
    match line with
    | .blank => main_loop now catalog lastReq rest
    | .request r =>
      let d := dispatch now catalog r
      let tail := main_loop now d.2 (some r) rest
      (d.1 :: tail.1, tail.2)
    | .malformed =>
      match lastReq with
      | none => ([], true)
      | some prev =>
        let resp := Response.failure (-32603) "json parse failure"
          (prev.id.getD 0)
        let tail := main_loop now catalog (some prev) rest
        (resp :: tail.1, tail.2)

/-! ## Concrete example databases and inputs used by the theorems -/

/-- An empty database. -/
def exDb1 : Database := ⟨[], [], [], []⟩

/-- A node used to exercise the mutation paths. -/
def nodeW : Node := ⟨"n1", "N1", none, none, [], NodeMeta.empty, 0, 0⟩

/-- An embedding used to exercise `add_embedding`. -/
def embX : Embedding := ⟨"emb1", "n1", [1], 1, "m"⟩

/-- Two-node database with identical embeddings: both nodes score the same
confidence for any query, exposing the tie-handling of search.  Node `b`
is created later than node `a`, so `get_nodes` lists `b` first. -/
def nodeA : Node := ⟨"a", "a", none, none, [], NodeMeta.empty, 1, 1⟩

def nodeB : Node := ⟨"b", "b", none, none, [], NodeMeta.empty, 2, 2⟩

def embA : Embedding := ⟨"ea", "a", [1], 1, "m"⟩

def embB : Embedding := ⟨"eb", "b", [1], 1, "m"⟩

def exDb2 : Database := ⟨[nodeA, nodeB], [], [embA, embB], []⟩

/-- One-edge database for the shortest-path witness (strength 1 keeps the
rational arithmetic kernel-friendly; the shape claims do not depend on
the value). -/
def exDb3 : Database :=
  ⟨[], [⟨"eab", "a", "b", .compatible_with, 1, 0⟩], [], []⟩

/-- Diamond-with-detour database for the all-paths claim: edges
`A -> X`, `A -> Y`, `X -> T`, `Y -> X`.  Both `A,X,T` and `A,Y,X,T` are
simple undirected paths from `A` to `T` within 4 hops. -/
def exDb5 : Database :=
  ⟨[],
   [⟨"eAX", "A", "X", .compatible_with, 1, 0⟩,
    ⟨"eAY", "A", "Y", .compatible_with, 1, 0⟩,
    ⟨"eXT", "X", "T", .compatible_with, 1, 0⟩,
    ⟨"eYX", "Y", "X", .compatible_with, 1, 0⟩],
   [], []⟩

/-- Chain database `R -> A -> B` for the neighbourhood claim. -/
def exDb6 : Database :=
  ⟨[],
   [⟨"eRA", "R", "A", .compatible_with, 1, 0⟩,
    ⟨"eAB", "A", "B", .compatible_with, 1, 0⟩],
   [], []⟩

/-- Database where two labels contain the substring `alpha`; `n1` is the
first match in `get_nodes` order and `n2` the last. -/
def nodeN1 : Node := ⟨"n1", "Alpha", none, none, [], NodeMeta.empty, 2, 2⟩

def nodeN2 : Node := ⟨"n2", "Alphatwo", none, none, [], NodeMeta.empty, 1, 1⟩

def nodeN3 : Node := ⟨"n3", "Beta", none, none, [], NodeMeta.empty, 0, 0⟩

def exDb9 : Database := ⟨[nodeN1, nodeN2, nodeN3], [], [], []⟩

/-- An update item for the service claims. -/
def exItem : UpdateItem :=
  ⟨some "nodes-base.http", none, none, some "HTTP Request", none⟩

/-- Empty request parameters. -/
def noParams : Params := ⟨none, none, none, none, none⟩

/-- A ping request with id 7. -/
def reqPing7 : Request := ⟨some "ping", noParams, some 7⟩

/-- A request with an unknown method and id 9. -/
def reqNope9 : Request := ⟨some "nope", noParams, some 9⟩

/-! ## Claim C1: mutations and the update history -/

/-- C1 (counterexample).  The claim states that every mutation, including
`add_embedding`, writes exactly one history row in the same transaction
and that a failed history write rolls the mutation back.  On the empty
database: a fully successful `add_embedding` commits the embedding and
writes no history row at all, and an `add_node` whose history insert
fails still returns True and commits the node while the history stays
empty — the mutation is not rolled back. -/
theorem c1_history_claim_cex :
    (exDb1.add_embedding embX ⟨false, false⟩).1 = true ∧
    (exDb1.add_embedding embX ⟨false, false⟩).2.embeddings = [embX] ∧
    (exDb1.add_embedding embX ⟨false, false⟩).2.update_history = [] ∧
    (exDb1.add_node nodeW ⟨false, true⟩).1 = true ∧
    (exDb1.add_node nodeW ⟨false, true⟩).2.nodes = [nodeW] ∧
    (exDb1.add_node nodeW ⟨false, true⟩).2.update_history = [] := by
  decide

/-- C1 (amended).  For `add_node`, `add_edge`, `delete_node` and
`delete_edge`: a failing mutation rolls back (state unchanged, False
returned); a successful mutation with a successful history insert appends
exactly one history row in the same state transition; a failing history
insert is swallowed, so the mutation still commits with no history row.
`add_embedding` never touches the history table. -/
theorem c1_history_semantics (db : Database) (n : Node) (e : Edge)
    (nid eid : String) (em : Embedding) (hf : Bool) (f : FailSpec) :
    (db.add_node n ⟨true, hf⟩ = (false, db) ∧
     db.add_edge e ⟨true, hf⟩ = (false, db) ∧
     db.delete_node nid ⟨true, hf⟩ = (false, db) ∧
     db.delete_edge eid ⟨true, hf⟩ = (false, db) ∧
     db.add_embedding em ⟨true, hf⟩ = (false, db)) ∧
    ((db.add_node n ⟨false, false⟩).2.update_history =
        db.update_history ++
          [⟨n.id, "node", "add", none, some ("label=" ++ n.label), "api"⟩] ∧
     (db.add_edge e ⟨false, false⟩).2.update_history =
        db.update_history ++
          [⟨e.id, "node", "add_edge", none, some "type-and-strength", "api"⟩] ∧
     (db.delete_node nid ⟨false, false⟩).2.update_history =
        db.update_history ++ [⟨nid, "node", "delete", some "", none, "api"⟩] ∧
     (db.delete_edge eid ⟨false, false⟩).2.update_history =
        db.update_history ++
          [⟨eid, "node", "delete_edge", some "", none, "api"⟩]) ∧
    ((db.add_node n ⟨false, true⟩).1 = true ∧
     (db.add_node n ⟨false, true⟩).2.nodes = upsertNode n db.nodes ∧
     (db.add_node n ⟨false, true⟩).2.update_history = db.update_history ∧
     (db.add_edge e ⟨false, true⟩).1 = true ∧
     (db.add_edge e ⟨false, true⟩).2.edges = upsertEdge e db.edges ∧
     (db.add_edge e ⟨false, true⟩).2.update_history = db.update_history ∧
     (db.delete_node nid ⟨false, true⟩).2.update_history = db.update_history ∧
     (db.delete_edge eid ⟨false, true⟩).2.update_history = db.update_history) ∧
    (db.add_embedding em f).2.update_history = db.update_history := by
  refine ⟨⟨rfl, rfl, rfl, rfl, rfl⟩, ⟨rfl, rfl, rfl, rfl⟩,
    ⟨rfl, rfl, rfl, rfl, rfl, rfl, rfl, rfl⟩, ?_⟩
  unfold Database.add_embedding
  rcases f with ⟨mf, hf2⟩
  cases mf <;> rfl

/-! ## Claim C6: get_neighbors levels -/

/-- C6 (code bug).  On the chain `R -> A -> B`, the claim (and the spec)
require level 2 to be the exact depth-2 frontier `B` and forbid `A` from
reappearing below level 1.  The source never advances `current_level`
inside its level loop, so every level from 1 to `depth` recomputes the
direct neighbours of the root: level 2 equals `A` again and `B` is never
reached. -/
theorem c6_get_neighbors_frontier_bug :
    get_neighbors exDb6 "R" 2 none = [(0, ["R"]), (1, ["A"]), (2, ["A"])] ∧
    ¬ (2, ["B"]) ∈ get_neighbors exDb6 "R" 2 none ∧
    (get_neighbors exDb6 "R" 2 none).lookup 1 =
      (get_neighbors exDb6 "R" 2 none).lookup 2 := by
  decide

/-! ## Claim C7: the apply_update result object -/

/-- C7 (counterexample).  The claim states that a successful
`apply_update` returns an object carrying `ok: true` together with an
`updates_applied` count.  The source returns the literal object with the
single field `ok`; there is no `updates_applied` field. -/
theorem c7_apply_update_result_cex :
    (apply_update_impl defaultCatalog [exItem] [] []).2.2 =
      Json.obj [("ok", Json.bool true)] ∧
    Json.lookupField "updates_applied"
      (apply_update_impl defaultCatalog [exItem] [] []).2.2 = none := by
  exact ⟨rfl, rfl⟩

/-- Helper: a fold whose step appends exactly one event grows the event
log by the length of the folded list. -/
theorem foldl_events_length {α β : Type}
    (step : β × List ServiceEvent → α → β × List ServiceEvent)
    (h : ∀ st x, ((step st x).2).length = st.2.length + 1) :
    ∀ (l : List α) (st : β × List ServiceEvent),
      ((l.foldl step st).2).length = st.2.length + l.length := by
  intro l
  induction l with
  | nil => intro st; simp
  | cons x xs ih =>
    intro st
    rw [List.foldl_cons, ih (step st x), h st x]
    simp [Nat.add_assoc, Nat.add_comm 1 xs.length]

/-- C7 (amended).  A successful `apply_update` always returns the literal
object `ok: true` with no `updates_applied` count; the per-item counting
the spec describes exists only in the `events.jsonl` journal, which
receives exactly one event per added, modified and removed item.
Failures propagate as exceptions and are answered by the service loop as
JSON-RPC error objects, never as an `ok: false` result. -/
theorem c7_apply_update_ok_shape (catalog : List CatalogItem)
    (added modified removed : List UpdateItem) :
    (apply_update_impl catalog added modified removed).2.2 =
      Json.obj [("ok", Json.bool true)] ∧
    Json.lookupField "updates_applied"
      (apply_update_impl catalog added modified removed).2.2 = none ∧
    ((apply_update_impl catalog added modified removed).2.1).length =
      added.length + modified.length + removed.length := by
  refine ⟨rfl, rfl, ?_⟩
  unfold apply_update_impl
  rw [foldl_events_length _ (fun st x => by simp),
    foldl_events_length _ (fun st x => by simp),
    foldl_events_length _ (fun st x => by simp)]
  simp [Nat.add_assoc]

/-! ## Claim C8: service loop error handling -/

/-- C8 (code bug).  The claim states that a line that fails to parse is
answered with an error response (id 0 when nothing better is known) and
that the service always continues, including when the very first line is
malformed.  In the source the `except` handler evaluates
`req.get("id", 0)` where `req` is the variable bound by the failed
`json.loads`, so on the first malformed line `req` is unbound, the
handler raises `UnboundLocalError` and the loop dies without answering —
and when a previous request did parse, the error response carries the
stale id of that previous request.  Unknown methods are answered with
code -32603 and the loop continues, as claimed. -/
theorem c8_service_parse_failure_bug :
    main_loop 0 defaultCatalog none [.malformed] = ([], true) ∧
    main_loop 0 defaultCatalog none [.malformed, .request reqPing7] =
      ([], true) ∧
    main_loop 0 defaultCatalog none
        [.request reqPing7, .malformed, .request reqNope9] =
      ([.success (Json.obj [("ok", Json.bool true), ("ts", Json.num 0)]) 7,
        .failure (-32603) "json parse failure" 7,
        .failure (-32603) "Unknown method: nope" 9], false) := by
  exact ⟨rfl, rfl, rfl⟩

/-! ## Claim C10: cosine similarity -/

/-- C10 (counterexample).  The claim states the similarity of any vector
with itself is 1.0.  For the zero vector the guarded normalization maps
everything to zero, the raw cosine is 0, and the remapped similarity is
exactly one half. -/
theorem c10_self_similarity_cex :
    cosine_similarity [(0 : ℚ)] [(0 : ℚ)] = 1 / 2 ∧
    ¬ cosine_similarity [(0 : ℚ)] [(0 : ℚ)] = 1 := by
  have h : cosine_similarity [(0 : ℚ)] [(0 : ℚ)] = 1 / 2 := by
    norm_num [cosine_similarity, rawCosine, dotR, normalizeGuarded]
  exact ⟨h, by rw [h]; norm_num⟩

/-- Helper: the dot product is symmetric. -/
theorem dotR_comm (v w : List ℝ) : dotR v w = dotR w v := by
  unfold dotR
  induction v generalizing w with
  | nil => cases w <;> simp
  | cons a as ih =>
    cases w with
    | nil => simp
    | cons b bs => simp [ih bs, mul_comm]

/-- C10 (amended).  The similarity is exactly symmetric (hence symmetric
within any tolerance), lies in the closed unit interval, and equals the
guarded raw cosine remapped by `(cos + 1) / 2` and clamped; it is not 1.0
for every vector paired with itself. -/
theorem c10_cosine_similarity_spec (v w : List ℚ) :
    cosine_similarity v w = cosine_similarity w v ∧
    0 ≤ cosine_similarity v w ∧ cosine_similarity v w ≤ 1 ∧
    cosine_similarity v w = max 0 (min 1 ((rawCosine v w + 1) / 2)) := by
  refine ⟨?_, le_max_left _ _, ?_, rfl⟩
  · unfold cosine_similarity rawCosine
    rw [dotR_comm]
  · exact max_le (by norm_num) (min_le_left _ _)

/-! ## Claim C5: find_all_paths visited-set semantics -/

/-- Undirected adjacency of two node ids in the edge table (the traversal
expands both outgoing and incoming edges). -/
def adjacentUndirected (db : Database) (u v : String) : Bool :=
  db.edges.any (fun e =>
    (e.source_id == u && e.target_id == v) ||
    (e.source_id == v && e.target_id == u))

/-- Are all consecutive pairs of the node sequence connected by an edge
(in either direction)? -/
def chainConnected (db : Database) : List String → Bool
  | [] => true
  | [_] => true
  | u :: v :: rest => adjacentUndirected db u v && chainConnected db (v :: rest)

/-- Modelled from the spec for claim C5: a path that an enumeration with a
genuinely per-path visited set may return — simple (no node twice),
endpoints as requested, within the hop bound, each consecutive pair
connected by an edge in either direction. -/
def validSimplePath (db : Database) (s e : String) (max_hops : ℕ)
    (p : List String) : Prop :=
  p.head? = some s ∧ p.getLast? = some e ∧ p.Nodup ∧
  p.length - 1 ≤ max_hops ∧ chainConnected db p = true

instance (db : Database) (s e : String) (max_hops : ℕ) (p : List String) :
    Decidable (validSimplePath db s e max_hops p) :=
  inferInstanceAs (Decidable (_ ∧ _ ∧ _ ∧ _ ∧ _))

/-- C5 (counterexample).  On the diamond `A -> X`, `A -> Y`, `X -> T`,
`Y -> X`, the node sequence `A, Y, X, T` is a simple path within 4 hops
whose only shared intermediate with the returned path `A, X, T` is `X` —
yet `find_all_paths` never returns it (and not because of the `max_paths`
cutoff): exploring the `A -> X` branch first adds `X` to the visited set
of the enclosing frame, and the copy handed to the sibling branch through
`Y` still contains `X`, so the exclusion leaks across sibling branches. -/
theorem c5_sibling_leak_cex :
    validSimplePath exDb5 "A" "T" 4 ["A", "Y", "X", "T"] ∧
    (find_all_paths exDb5 "A" "T" 4 5).map (fun p => p.nodes) =
      [["A", "X", "T"]] ∧
    ¬ ["A", "Y", "X", "T"] ∈
        (find_all_paths exDb5 "A" "T" 4 5).map (fun p => p.nodes) ∧
    (find_all_paths exDb5 "A" "T" 4 5).length < 5 := by
  decide

/-- Helper: the DFS edge loop preserves the no-duplicate invariant of
every accumulated path, provided the recursive call it is given does so;
the visited set only grows along the fold. -/
theorem dfsEdges_nodup
    (dfsRec : String → List String → List String → List String → ℕ →
      List Path → List Path)
    (hrec : ∀ cur p ed v d ps, p.Nodup → (∀ x ∈ p, x ∈ v) →
      (∀ q ∈ ps, q.nodes.Nodup) → ∀ q ∈ dfsRec cur p ed v d ps, q.nodes.Nodup)
    (out : Bool) (path ed : List String) :
    ∀ (es : List Edge) (visited : List String) (depth : ℕ) (paths : List Path),
      path.Nodup → (∀ x ∈ path, x ∈ visited) →
      (∀ q ∈ paths, q.nodes.Nodup) →
      (∀ q ∈ (dfsEdges dfsRec out path ed es visited depth paths).2,
        q.nodes.Nodup) ∧
      (∀ x ∈ visited,
        x ∈ (dfsEdges dfsRec out path ed es visited depth paths).1) := by
  intro es
  induction es with
  | nil =>
    intro visited depth paths _ _ hps
    exact ⟨hps, fun x hx => hx⟩
  | cons e rest ih =>
    intro visited depth paths hnd hsub hps
    rw [dfsEdges]
    by_cases hmem : (if out then e.target_id else e.source_id) ∈ visited
    · rw [if_pos hmem]
      exact ih visited depth paths hnd hsub hps
    · rw [if_neg hmem]
      have hsub1 : ∀ x ∈ path,
          x ∈ (if out then e.target_id else e.source_id) :: visited :=
        fun x hx => List.mem_cons_of_mem _ (hsub x hx)
      have hnd1 : (path ++ [if out then e.target_id else e.source_id]).Nodup := by
        rw [List.nodup_append]
        exact ⟨hnd, List.nodup_singleton _,
          fun x hx hx1 => hmem (by
            rw [List.mem_singleton] at hx1
            exact hx1 ▸ hsub x hx)⟩
      have hsubgrow : ∀ x ∈ path ++ [if out then e.target_id else e.source_id],
          x ∈ (if out then e.target_id else e.source_id) :: visited := by
        intro x hx
        rcases List.mem_append.mp hx with h | h
        · exact List.mem_cons_of_mem _ (hsub x h)
        · rw [List.mem_singleton] at h
          exact h ▸ List.mem_cons_self _ _
      have hps1 := hrec (if out then e.target_id else e.source_id)
        (path ++ [if out then e.target_id else e.source_id]) (ed ++ [e.id])
        ((if out then e.target_id else e.source_id) :: visited) (depth + 1)
        paths hnd1 hsubgrow hps
      have hrest := ih ((if out then e.target_id else e.source_id) :: visited)
        depth
        (dfsRec (if out then e.target_id else e.source_id)
          (path ++ [if out then e.target_id else e.source_id]) (ed ++ [e.id])
          ((if out then e.target_id else e.source_id) :: visited) (depth + 1)
          paths)
        hnd hsub1 hps1
      exact ⟨hrest.1, fun x hx => hrest.2 x (List.mem_cons_of_mem _ hx)⟩

/-- Helper: every path accumulated by the DFS of `find_all_paths` has
duplicate-free nodes, given the current partial path is duplicate-free
and contained in the visited set. -/
theorem dfsVisit_nodup (db : Database) (end_id : String) (mh mp : ℕ) :
    ∀ (fuel : ℕ) (cur : String) (path ed visited : List String) (depth : ℕ)
      (paths : List Path),
      path.Nodup → (∀ x ∈ path, x ∈ visited) →
      (∀ q ∈ paths, q.nodes.Nodup) →
      ∀ q ∈ dfsVisit db end_id mh mp fuel cur path ed visited depth paths,
        q.nodes.Nodup := by
  intro fuel
  induction fuel with
  | zero =>
    intro cur path ed visited depth paths _ _ hps
    exact hps
  | succ n ih =>
    intro cur path ed visited depth paths hnd hsub hps
    rw [dfsVisit]
    by_cases h1 : mp ≤ paths.length
    · rw [if_pos h1]; exact hps
    rw [if_neg h1]
    by_cases h2 : mh < depth
    · rw [if_pos h2]; exact hps
    rw [if_neg h2]
    by_cases h3 : cur = end_id
    · rw [if_pos h3]
      intro q hq
      rcases List.mem_append.mp hq with h | h
      · exact hps q h
      · rw [List.mem_singleton] at h
        subst h
        exact hnd
    rw [if_neg h3]
    have step1 := dfsEdges_nodup _ ih true path ed
      (db.get_edges_from_node cur) visited depth paths hnd hsub hps
    have step2 := dfsEdges_nodup _ ih false path ed
      (db.get_edges_to_node cur)
      (dfsEdges (fun c p e v d ps => dfsVisit db end_id mh mp n c p e v d ps)
        true path ed (db.get_edges_from_node cur) visited depth paths).1
      depth
      (dfsEdges (fun c p e v d ps => dfsVisit db end_id mh mp n c p e v d ps)
        true path ed (db.get_edges_from_node cur) visited depth paths).2
      hnd (fun x hx => step1.2 x (hsub x hx)) step1.1
    exact step2.1

/-- C5 (amended).  Every path returned by `find_all_paths` has a
duplicate-free node sequence; however the visited set is not per-path:
the source adds each tried neighbour to the enclosing frame's set before
recursing and hands the grown copy to the following sibling branches, so
exclusion leaks across siblings and some simple paths within the bounds
are never enumerated. -/
theorem c5_find_all_paths_nodup (db : Database) (s e : String) (mh mp : ℕ) :
    (find_all_paths db s e mh mp).Forall (fun p => p.nodes.Nodup) := by
  rw [List.forall_iff_forall_mem]
  intro p hp
  rw [find_all_paths] at hp
  have hp2 := (List.perm_insertionSort pathConfDesc _).mem_iff.mp hp
  exact dfsVisit_nodup db e mh mp (mh + 2) s [s] [] [s] 0 []
    (List.nodup_singleton s) (fun x hx => hx) (fun q hq => absurd hq
      (List.not_mem_nil q)) p hp2

/-! ## Claim C3: find_shortest_path shape -/

/-- Invariant of every BFS queue entry: the carried path starts at the
start node, ends at the entry's node, and has one node more than its
depth and exactly `depth` edges. -/
def TInv (start : String) (t : TraversalNode) : Prop :=
  t.path.head? = some start ∧ t.path.getLast? = some t.node_id ∧
  t.path.length = t.depth + 1 ∧ t.edges_in_path.length = t.depth

/-- Shape of a well-formed returned path. -/
def PathShape (s e : String) (mh : ℕ) (p : Path) : Prop :=
  p.nodes.head? = some s ∧ p.nodes.getLast? = some e ∧
  p.edges.length + 1 = p.nodes.length ∧ p.edges.length ≤ mh ∧
  p.length = p.edges.length

/-- Helper: the head survives appending on the right to a list with a
known head. -/
theorem head?_append_right {l : List String} {x s : String}
    (h : l.head? = some s) : (l ++ [x]).head? = some s := by
  cases l with
  | nil => simp at h
  | cons a t => simpa using h

theorem mkFoundPath_shape (s e : String) (mh : ℕ) (cur : TraversalNode)
    (eid : String) (st : ℚ) (hinv : TInv s cur) (hd : cur.depth < mh) :
    PathShape s e mh (mkFoundPath cur eid st e) := by
  obtain ⟨h1, _, h3, h4⟩ := hinv
  refine ⟨head?_append_right h1, List.getLast?_concat _, ?_, ?_, ?_⟩
  · simp [mkFoundPath, h3, h4]
  · simp [mkFoundPath, h4]
    omega
  · simp [mkFoundPath, h4]

theorem mkChild_inv (s : String) (cur : TraversalNode) (eid : String)
    (st : ℚ) (nbr : String) (hinv : TInv s cur) :
    TInv s (mkChild cur eid st nbr) := by
  obtain ⟨h1, _, h3, h4⟩ := hinv
  exact ⟨head?_append_right h1, List.getLast?_concat _,
    by simp [mkChild, h3], by simp [mkChild, h4]⟩

/-- Helper: when the edge scan returns a found path early, that path is
well-formed. -/
theorem scanEdges_error (s e : String) (mh : ℕ) (cur : TraversalNode)
    (out : Bool) (hinv : TInv s cur) (hd : cur.depth < mh) :
    ∀ (es : List Edge) (enq : List TraversalNode) (visited : List String)
      (p : Path),
      scanEdges e cur out es enq visited = .error p → PathShape s e mh p := by
  intro es
  induction es with
  | nil => intro enq visited p h; simp [scanEdges] at h
  | cons ed rest ih =>
    intro enq visited p h
    rw [scanEdges] at h
    by_cases h1 : (if out then ed.target_id else ed.source_id) = e
    · rw [if_pos h1] at h
      cases h
      exact mkFoundPath_shape s e mh cur ed.id ed.strength hinv hd
    · rw [if_neg h1] at h
      by_cases h2 : (if out then ed.target_id else ed.source_id) ∈ visited
      · rw [if_pos h2] at h; exact ih _ _ p h
      · rw [if_neg h2] at h; exact ih _ _ p h

/-- Helper: when the edge scan completes, every enqueued entry satisfies
the queue invariant. -/
theorem scanEdges_ok (s e : String) (cur : TraversalNode) (out : Bool)
    (hinv : TInv s cur) :
    ∀ (es : List Edge) (enq : List TraversalNode) (visited : List String)
      (q : List TraversalNode) (v : List String),
      scanEdges e cur out es enq visited = .ok (q, v) →
      (∀ t ∈ enq, TInv s t) → ∀ t ∈ q, TInv s t := by
  intro es
  induction es with
  | nil =>
    intro enq visited q v h henq
    rw [scanEdges] at h
    cases h
    exact henq
  | cons ed rest ih =>
    intro enq visited q v h henq
    rw [scanEdges] at h
    by_cases h1 : (if out then ed.target_id else ed.source_id) = e
    · rw [if_pos h1] at h; cases h
    · rw [if_neg h1] at h
      by_cases h2 : (if out then ed.target_id else ed.source_id) ∈ visited
      · rw [if_pos h2] at h; exact ih _ _ q v h henq
      · rw [if_neg h2] at h
        refine ih _ _ q v h ?_
        intro t ht
        rcases List.mem_append.mp ht with hl | hr
        · exact henq t hl
        · rw [List.mem_singleton] at hr
          exact hr ▸ mkChild_inv s cur ed.id ed.strength _ hinv

/-- Helper: any path the BFS loop returns is well-formed, given the
queue invariant. -/
theorem bfsLoop_shape (db : Database) (s e : String) (mh : ℕ) :
    ∀ (fuel : ℕ) (queue : List TraversalNode) (visited : List String)
      (p : Path),
      (∀ t ∈ queue, TInv s t) →
      bfsLoop db e mh fuel queue visited = some p → PathShape s e mh p := by
  intro fuel
  induction fuel with
  | zero => intro queue visited p _ h; simp [bfsLoop] at h
  | succ n ih =>
    intro queue visited p hq h
    cases queue with
    | nil => simp [bfsLoop] at h
    | cons current rest =>
      have hcur : TInv s current := hq current (List.mem_cons_self _ _)
      have hrest : ∀ t ∈ rest, TInv s t :=
        fun t ht => hq t (List.mem_cons_of_mem _ ht)
      rw [bfsLoop] at h
      by_cases hdep : mh ≤ current.depth
      · rw [if_pos hdep] at h
        exact ih rest visited p hrest h
      · rw [if_neg hdep] at h
        have hlt : current.depth < mh := Nat.lt_of_not_le hdep
        cases h1 : scanEdges e current true
            (db.get_edges_from_node current.node_id) [] visited with
        | error p1 =>
          rw [h1] at h
          dsimp only at h
          cases h
          exact scanEdges_error s e mh current true hcur hlt _ _ _ _ h1
        | ok r1 =>
          rw [h1] at h
          obtain ⟨q1, v1⟩ := r1
          dsimp only at h
          have hq1 : ∀ t ∈ q1, TInv s t :=
            scanEdges_ok s e current true hcur _ _ _ _ _ h1
              (fun t ht => absurd ht (List.not_mem_nil t))
          cases h2 : scanEdges e current false
              (db.get_edges_to_node current.node_id) q1 v1 with
          | error p2 =>
            rw [h2] at h
            dsimp only at h
            cases h
            exact scanEdges_error s e mh current false hcur hlt _ _ _ _ h2
          | ok r2 =>
            rw [h2] at h
            obtain ⟨q2, v2⟩ := r2
            dsimp only at h
            have hq2 : ∀ t ∈ q2, TInv s t :=
              scanEdges_ok s e current false hcur _ _ _ _ _ h2 hq1
            refine ih (rest ++ q2) v2 p ?_ h
            intro t ht
            rcases List.mem_append.mp ht with hl | hr
            · exact hrest t hl
            · exact hq2 t hr

/-- C3.  Every path returned by `find_shortest_path(start, end, max_hops)`
starts at `start`, ends at `end`, has one edge less than nodes, and stays
within the hop bound (its `length` field equals the edge count); and when
start and end coincide the result is the length-0 path with total
strength 1 and confidence 1. -/
theorem c3_find_shortest_path_spec :
    (∀ (db : Database) (s e : String) (mh : ℕ) (p : Path),
      find_shortest_path db s e mh = some p →
      p.nodes.head? = some s ∧ p.nodes.getLast? = some e ∧
      p.edges.length + 1 = p.nodes.length ∧ p.edges.length ≤ mh ∧
      p.length = p.edges.length) ∧
    (∀ (db : Database) (s : String) (mh : ℕ),
      find_shortest_path db s s mh =
        some { nodes := [s], edges := [], length := 0, total_strength := 1,
               confidence := 1,
               reasoning := "Source and target are the same node",
               pattern := none }) := by
  constructor
  · intro db s e mh p h
    rw [find_shortest_path] at h
    by_cases hse : s = e
    · rw [if_pos hse] at h
      cases h
      subst hse
      exact ⟨rfl, rfl, rfl, Nat.zero_le _, rfl⟩
    · rw [if_neg hse] at h
      have := bfsLoop_shape db s e mh (2 * db.edges.length + 2)
        [{ node_id := s, depth := 0, path := [s], edges_in_path := [],
           confidence := 1 }] [s] p
        (by
          intro t ht
          rw [List.mem_singleton] at ht
          subst ht
          exact ⟨rfl, rfl, rfl, rfl⟩) h
      exact this
  · intro db s mh
    rw [find_shortest_path, if_pos rfl]

/-- C3 (witness): on the one-edge database the BFS returns the one-hop
path from `a` to `b`, and the theorem instantiates on it. -/
def pathAB : Path :=
  { nodes := ["a", "b"], edges := ["eab"], length := 1,
    total_strength := 1 * 1, confidence := min 1 (1 * 1),
    reasoning := "Path through 1 connections", pattern := none }

theorem c3_find_shortest_path_witness :
    find_shortest_path exDb3 "a" "b" 5 = some pathAB ∧
    (pathAB.nodes.head? = some "a" ∧ pathAB.nodes.getLast? = some "b" ∧
     pathAB.edges.length + 1 = pathAB.nodes.length ∧
     pathAB.edges.length ≤ 5 ∧ pathAB.length = pathAB.edges.length) :=
  ⟨rfl, c3_find_shortest_path_spec.1 exDb3 "a" "b" 5 pathAB rfl⟩

/-! ## Claim C9: the integrate handler -/

/-- Helper: a fold that updates the two components of a pair
independently splits into two folds. -/
theorem foldl_pair_split (l : List Node) (p q : Node → Bool) :
    ∀ (i1 i2 : Option Node),
      l.foldl
        (fun st n =>
          (if p n then some n else st.1, if q n then some n else st.2))
        (i1, i2) =
      (l.foldl (fun s n => if p n then some n else s) i1,
       l.foldl (fun s n => if q n then some n else s) i2) := by
  induction l with
  | nil => intro i1 i2; rfl
  | cons x xs ih =>
    intro i1 i2
    rw [List.foldl_cons, List.foldl_cons, List.foldl_cons, ih]

/-- Helper: a keep-the-last-match fold equals the first match of the
reversed list (falling back to the initial value). -/
theorem foldl_lastmatch (p : Node → Bool) :
    ∀ (l : List Node) (init : Option Node),
      l.foldl (fun s n => if p n then some n else s) init =
        (l.reverse.find? p).or init := by
  intro l
  induction l with
  | nil => intro init; simp
  | cons x xs ih =>
    intro init
    rw [List.foldl_cons, ih, List.reverse_cons, List.find?_append]
    cases hfind : xs.reverse.find? p with
    | some n => simp [hfind, Option.or]
    | none =>
      by_cases hp : p x
      · simp [hfind, List.find?, hp, Option.or]
      · simp [hfind, List.find?, hp, Option.or]

/-- The resolution loop of `_handle_integrate_query` keeps the last match
of the scan, i.e. the first match of the reversed window. -/
theorem resolveIntegrateLabels_eq (db : Database) (sl tl : String) :
    resolveIntegrateLabels db sl tl =
      ((db.get_nodes 100 0).reverse.find? (matchesLabel sl),
       (db.get_nodes 100 0).reverse.find? (matchesLabel tl)) := by
  rw [resolveIntegrateLabels, foldl_pair_split, foldl_lastmatch,
    foldl_lastmatch, Option.or_none, Option.or_none]

/-- C9 (counterexample).  The claim says label resolution takes the first
matching node.  On `exDb9`, the first node of the `get_nodes` scan whose
label contains `alpha` is `nodeN1`, but the handler resolves the source
to `nodeN2` — the loop has no break, so the last match wins. -/
theorem c9_integrate_first_wins_cex :
    handle_integrate_query exDb9 "alpha to beta" =
      .ok (nodeN2, nodeN3, []) ∧
    (exDb9.get_nodes 100 0).find? (matchesLabel "alpha") = some nodeN1 ∧
    ¬ nodeN2 = nodeN1 :=
  ⟨rfl, rfl, by decide⟩

/-- C9 (amended).  Given text `A to B`, the handler resolves each label by
case-insensitive substring match over the default `get_nodes()` window
with the last matching node of the scan winning (the first match of the
reversed window), and calls `find_all_paths` on the resolved ids with
`max_hops = 4` and `max_paths = 3`. -/
theorem c9_handle_integrate_spec (db : Database) (q a b : String)
    (s t : Node) (ps : List Path) (hsplit : pySplit " to " q = [a, b])
    (h : handle_integrate_query db q = .ok (s, t, ps)) :
    (db.get_nodes 100 0).reverse.find? (matchesLabel (pyStrip a)) = some s ∧
    (db.get_nodes 100 0).reverse.find? (matchesLabel (pyStrip b)) = some t ∧
    ps = find_all_paths db s.id t.id 4 3 := by
  rw [handle_integrate_query, hsplit] at h
  dsimp only at h
  rw [resolveIntegrateLabels_eq] at h
  split at h
  next source target heq =>
    rw [Prod.mk.injEq] at heq
    obtain ⟨hq1, hq2⟩ := heq
    simp only [Except.ok.injEq, Prod.mk.injEq] at h
    obtain ⟨h1, h2, h3⟩ := h
    subst h1
    subst h2
    exact ⟨hq1, hq2, h3.symm⟩
  next heq =>
    exact absurd h (by simp)

/-- C9 (witness): the amended theorem applied to `exDb9` and the query
`alpha to beta`. -/
theorem c9_handle_integrate_witness :
    (pySplit " to " "alpha to beta" = ["alpha", "beta"] ∧
     handle_integrate_query exDb9 "alpha to beta" = .ok (nodeN2, nodeN3, [])) ∧
    ((exDb9.get_nodes 100 0).reverse.find?
        (matchesLabel (pyStrip "alpha")) = some nodeN2 ∧
     (exDb9.get_nodes 100 0).reverse.find?
        (matchesLabel (pyStrip "beta")) = some nodeN3 ∧
     ([] : List Path) = find_all_paths exDb9 nodeN2.id nodeN3.id 4 3) :=
  ⟨⟨by decide, rfl⟩,
   c9_handle_integrate_spec exDb9 "alpha to beta" "alpha" "beta" nodeN2
     nodeN3 [] (by decide) rfl⟩

/-! ## Claim C4: the 100-node window -/

/-- Helper: a hit kept by the semantic scorer carries the candidate's id
and clears the confidence threshold. -/
theorem scoreNode_some (db : Database) (qe : List ℚ) (cf tf : Option String)
    (mc : ℝ) (n : Node) (r : SearchResult)
    (h : scoreNode db qe cf tf mc n = some r) :
    r.node_id = n.id ∧ mc ≤ r.confidence := by
  rw [scoreNode] at h
  split at h
  · exact absurd h (by simp)
  split at h
  · exact absurd h (by simp)
  split at h
  · exact absurd h (by simp)
  next emb heq =>
    dsimp only at h
    split at h
    · exact absurd h (by simp)
    next hconf =>
      cases h
      exact ⟨rfl, le_of_not_lt hconf⟩

/-- Helper: a hit kept by the keyword scorer carries the candidate's id. -/
theorem scoreNodeKeyword_some (db : Database) (q ql : String)
    (cf : Option String) (n : Node) (r : SearchResult)
    (h : scoreNodeKeyword db q ql cf n = some r) : r.node_id = n.id := by
  rw [scoreNodeKeyword] at h
  split at h
  · exact absurd h (by simp)
  dsimp only at h
  split at h
  · exact absurd h (by simp)
  cases h
  rfl

/-- Helper: assigning ranks does not change the listed node ids. -/
theorem setRanksFrom_map_node_id :
    ∀ (i : ℕ) (l : List SearchResult),
      (setRanksFrom i l).map (fun r => r.node_id) =
        l.map (fun r => r.node_id) := by
  intro i l
  induction l generalizing i with
  | nil => rfl
  | cons r rs ih => simp [setRanksFrom, ih]

/-- Helper: assigning ranks does not change the listed confidences. -/
theorem setRanksFrom_map_confidence :
    ∀ (i : ℕ) (l : List SearchResult),
      (setRanksFrom i l).map (fun r => r.confidence) =
        l.map (fun r => r.confidence) := by
  intro i l
  induction l generalizing i with
  | nil => rfl
  | cons r rs ih => simp [setRanksFrom, ih]

/-- Helper: ranks are assigned consecutively from the start index. -/
theorem setRanksFrom_map_rank :
    ∀ (i : ℕ) (l : List SearchResult),
      (setRanksFrom i l).map (fun r => r.rank) = List.range' i l.length := by
  intro i l
  induction l generalizing i with
  | nil => rfl
  | cons r rs ih => simp [setRanksFrom, ih, List.range'_succ]

theorem setRanksFrom_length (i : ℕ) (l : List SearchResult) :
    (setRanksFrom i l).length = l.length := by
  have := congrArg List.length (setRanksFrom_map_node_id i l)
  simpa using this

/-- Helper: node ids listed by `semantic_search` come from the default
`get_nodes()` window. -/
theorem semantic_search_window (db : Database) (qe : List ℚ) (lim : ℕ)
    (cf tf : Option String) (mc : ℝ) :
    ((semantic_search db qe lim cf tf mc).map (fun r => r.node_id)) ⊆
      ((db.get_nodes 100 0).map (fun n => n.id)) := by
  intro x hx
  rw [semantic_search, setRanksFrom_map_node_id] at hx
  obtain ⟨r, hr, hid⟩ := List.mem_map.mp hx
  have hr2 := (List.perm_insertionSort confDesc _).mem_iff.mp
    ((List.take_sublist lim _).subset hr)
  obtain ⟨n, hn, hsc⟩ := List.mem_filterMap.mp hr2
  have := (scoreNode_some db qe cf tf mc n r hsc).1
  exact List.mem_map.mpr ⟨n, hn, by rw [← hid, this]⟩

/-- Helper: node ids listed by `keyword_search` come from the default
`get_nodes()` window. -/
theorem keyword_search_window (db : Database) (q : String) (lim : ℕ)
    (cf : Option String) :
    ((keyword_search db q lim cf).map (fun r => r.node_id)) ⊆
      ((db.get_nodes 100 0).map (fun n => n.id)) := by
  intro x hx
  rw [keyword_search, setRanksFrom_map_node_id] at hx
  obtain ⟨r, hr, hid⟩ := List.mem_map.mp hx
  have hr2 := (List.perm_insertionSort relevanceDesc _).mem_iff.mp
    ((List.take_sublist lim _).subset hr)
  obtain ⟨n, hn, hsc⟩ := List.mem_filterMap.mp hr2
  have := scoreNodeKeyword_some db q (pyLower q) cf n r hsc
  exact List.mem_map.mpr ⟨n, hn, by rw [← hid, this]⟩

/-- C4.  Semantic and keyword search only ever return nodes from the
window delivered by `get_nodes` with the storage default of limit 100 and
offset 0 (the candidate scan is that call), and the integrate and suggest
handlers only resolve a label to a node of that window: a node outside
the 100 most recently created ones is never returned as a search result
nor resolved as a label match. -/
theorem c4_search_and_resolution_window (db : Database) (qe : List ℚ)
    (q : String) (lim : ℕ) (cf tf : Option String) (mc : ℝ)
    (sl tl : String) :
    (((semantic_search db qe lim cf tf mc).map (fun r => r.node_id)) ⊆
      ((db.get_nodes 100 0).map (fun n => n.id))) ∧
    (((keyword_search db q lim cf).map (fun r => r.node_id)) ⊆
      ((db.get_nodes 100 0).map (fun n => n.id))) ∧
    ((resolveIntegrateLabels db sl tl).1.elim True
      (fun n => n ∈ db.get_nodes 100 0)) ∧
    ((resolveIntegrateLabels db sl tl).2.elim True
      (fun n => n ∈ db.get_nodes 100 0)) ∧
    ((handle_suggest_locate db q).elim True
      (fun n => n ∈ db.get_nodes 100 0)) := by
  refine ⟨semantic_search_window db qe lim cf tf mc,
    keyword_search_window db q lim cf, ?_, ?_, ?_⟩
  · rw [resolveIntegrateLabels_eq]
    cases hf : (db.get_nodes 100 0).reverse.find? (matchesLabel sl) with
    | none => exact trivial
    | some n =>
      have := List.mem_of_find?_eq_some hf
      simpa using List.mem_reverse.mp this
  · rw [resolveIntegrateLabels_eq]
    cases hf : (db.get_nodes 100 0).reverse.find? (matchesLabel tl) with
    | none => exact trivial
    | some n =>
      have := List.mem_of_find?_eq_some hf
      simpa using List.mem_reverse.mp this
  · rw [handle_suggest_locate]
    cases hf : (db.get_nodes 100 0).find? (matchesLabel q) with
    | none => exact trivial
    | some n => simpa using List.mem_of_find?_eq_some hf

/-! ## Claim C2: semantic_search ordering, ranks, threshold -/

/-- Strict lexicographic order on character lists (string ascending). -/
def lexLT : List Char → List Char → Bool
  | [], [] => false
  | [], _ :: _ => true
  | _ :: _, [] => false
  | a :: as, b :: bs => a < b || (a = b && lexLT as bs)

/-- The ordering asserted by the claim: confidence descending, ties broken
by node label ascending, then node id ascending. -/
def claimTieOrder (x y : SearchResult) : Prop :=
  y.confidence < x.confidence ∨
  (x.confidence = y.confidence ∧
    (lexLT x.node_label.data y.node_label.data = true ∨
     (x.node_label = y.node_label ∧ lexLT x.node_id.data y.node_id.data = true)))

/-- The hit produced for node `a` of `exDb2` under the zero query vector. -/
noncomputable def resA : SearchResult :=
  ⟨"a", "a", "unknown", "uncategorized", none, 1 / 2, 1 / 2, 0, 0, [], [],
   [], [], [], "Found a based on semantic similarity", NodeMeta.empty⟩

/-- The hit produced for node `b` of `exDb2` under the zero query vector. -/
noncomputable def resB : SearchResult :=
  ⟨"b", "b", "unknown", "uncategorized", none, 1 / 2, 1 / 2, 0, 0, [], [],
   [], [], [], "Found b based on semantic similarity", NodeMeta.empty⟩

/-- Helper: against the zero query vector every embedded candidate scores
exactly one half (the normalized zero vector kills the dot product). -/
theorem cosine_similarity_zero_query (w : List ℚ) :
    cosine_similarity [0] w = 1 / 2 := by
  have hz : normalizeGuarded [(0 : ℚ)] = [0] := by
    simp [normalizeGuarded]
  have hdot : dotR [0] (normalizeGuarded w) = 0 := by
    unfold dotR
    cases hw : normalizeGuarded w with
    | nil => simp
    | cons c cs => simp
  rw [cosine_similarity, rawCosine, hz, hdot]
  norm_num [min_def, max_def]

theorem scoreNode_nodeB :
    scoreNode exDb2 [0] none none ((3 : ℝ) / 10) nodeB = some resB := by
  have hemb : exDb2.get_embedding nodeB.id = some embB := rfl
  rw [scoreNode, hemb]
  rw [if_neg (by decide : ¬ filterRejects none nodeB.metadata.category = true)]
  rw [if_neg (by decide : ¬ filterRejects none nodeB.metadata.type = true)]
  dsimp only [embB]
  rw [cosine_similarity_zero_query]
  rw [if_neg (by norm_num [min_def, max_def] :
    ¬ max 0 (min 1 ((1 : ℝ) / 2)) < (3 : ℝ) / 10)]
  refine congrArg some ?_
  have hrel : get_related_nodes exDb2 "b" 5 = [] := rfl
  simp [resB, nodeB, NodeMeta.empty, hrel, min_def, max_def]
  norm_num

theorem scoreNode_nodeA :
    scoreNode exDb2 [0] none none ((3 : ℝ) / 10) nodeA = some resA := by
  have hemb : exDb2.get_embedding nodeA.id = some embA := rfl
  rw [scoreNode, hemb]
  rw [if_neg (by decide : ¬ filterRejects none nodeA.metadata.category = true)]
  rw [if_neg (by decide : ¬ filterRejects none nodeA.metadata.type = true)]
  dsimp only [embA]
  rw [cosine_similarity_zero_query]
  rw [if_neg (by norm_num [min_def, max_def] :
    ¬ max 0 (min 1 ((1 : ℝ) / 2)) < (3 : ℝ) / 10)]
  refine congrArg some ?_
  have hrel : get_related_nodes exDb2 "a" 5 = [] := rfl
  simp [resA, nodeA, NodeMeta.empty, hrel, min_def, max_def]
  norm_num

/-- Helper: the full pipeline on `exDb2` with the zero query vector: both
candidates tie at confidence one half, the stable sort keeps the
`created_at DESC` scan order (node `b` first), and ranks are assigned in
that order. -/
theorem semantic_search_exDb2 :
    semantic_search exDb2 [0] 10 none none ((3 : ℝ) / 10) =
      [{ resB with rank := 1 }, { resA with rank := 2 }] := by
  rw [semantic_search]
  rw [show exDb2.get_nodes 100 0 = [nodeB, nodeA] from by decide]
  simp only [List.filterMap_cons, List.filterMap_nil, scoreNode_nodeB,
    scoreNode_nodeA]
  simp only [List.insertionSort, List.orderedInsert]
  rw [if_pos (by norm_num [confDesc, resA, resB] : confDesc resB resA)]
  simp [setRanksFrom]

/-- C2 (counterexample).  The claim requires ties to be broken by node
label ascending then node id ascending.  On `exDb2` both hits tie at
confidence one half, and the result lists node `b` (label `b`) before
node `a` (label `a`): the source sorts by confidence only, so the claimed
ordering is violated. -/
theorem c2_tie_break_cex :
    (semantic_search exDb2 [0] 10 none none ((3 : ℝ) / 10)).map
        (fun r => (r.node_id, r.node_label, r.confidence, r.rank)) =
      [("b", "b", (1 : ℝ) / 2, 1), ("a", "a", (1 : ℝ) / 2, 2)] ∧
    ¬ List.Pairwise claimTieOrder
        (semantic_search exDb2 [0] 10 none none ((3 : ℝ) / 10)) := by
  constructor
  · rw [semantic_search_exDb2]
    rfl
  · rw [semantic_search_exDb2]
    intro hpw
    have h := (List.pairwise_cons.mp hpw).1 _ (List.mem_cons_self _ _)
    rcases h with h | ⟨-, h | ⟨h, -⟩⟩
    · exact absurd h (by norm_num [resA, resB])
    · exact absurd h (by decide)
    · exact absurd h (by decide)

/-- C2 (amended).  Every result list of `semantic_search` is sorted by
confidence descending (non-strictly, ties keeping the stable candidate
order; there is no label or id tie-break), its ranks are `1..|R|` in
order, and every confidence clears `min_confidence`. -/
theorem c2_semantic_search_ranked (db : Database) (qe : List ℚ) (lim : ℕ)
    (cf tf : Option String) (mc : ℝ) :
    List.Sorted confDesc (semantic_search db qe lim cf tf mc) ∧
    (semantic_search db qe lim cf tf mc).map (fun r => r.rank) =
      List.range' 1 (semantic_search db qe lim cf tf mc).length ∧
    (semantic_search db qe lim cf tf mc).Forall
      (fun r => mc ≤ r.confidence) := by
  refine ⟨?_, ?_, ?_⟩
  · have ht : List.Pairwise confDesc
        ((List.insertionSort confDesc
          ((db.get_nodes 100 0).filterMap
            (scoreNode db qe cf tf mc))).take lim) :=
      List.Pairwise.sublist (List.take_sublist lim _)
        (List.sorted_insertionSort confDesc _)
    have h1 : List.Pairwise (fun a b : ℝ => b ≤ a)
        ((semantic_search db qe lim cf tf mc).map
          (fun r => r.confidence)) := by
      rw [semantic_search, setRanksFrom_map_confidence]
      exact List.pairwise_map.mpr ht
    exact (@List.pairwise_map SearchResult ℝ (fun r => r.confidence)
      (fun a b => b ≤ a) _).mp h1
  · rw [semantic_search, setRanksFrom_map_rank, setRanksFrom_length]
  · rw [List.forall_iff_forall_mem]
    intro r hr
    rw [semantic_search] at hr
    have hc : r.confidence ∈
        ((List.insertionSort confDesc
          ((db.get_nodes 100 0).filterMap
            (scoreNode db qe cf tf mc))).take lim).map
          (fun r => r.confidence) := by
      rw [← setRanksFrom_map_confidence 1]
      exact List.mem_map_of_mem _ hr
    obtain ⟨y, hy, hyc⟩ := List.mem_map.mp hc
    have hy2 := (List.perm_insertionSort confDesc _).mem_iff.mp
      ((List.take_sublist lim _).subset hy)
    obtain ⟨n, hn, hsc⟩ := List.mem_filterMap.mp hy2
    exact hyc ▸ (scoreNode_some db qe cf tf mc n y hsc).2

end GraphRag
